import Mathlib

/-!
Verification development for the Rescue Chef single-page application.

The application state machine, its reducers (saveRecipe, finishCooking,
removeIngredient, the background image-arrival handler), the safety-score
normalizer, the detail-view recipe defaulting, and the persistence layer
are shallowly embedded below, translated directly from the source.
JavaScript numbers are modelled as exact rationals (ℚ); `Math.round x`
is `⌊x + 1/2⌋`, which is what JavaScript computes (half-way cases round
toward positive infinity); fields typed `T | null`/optional fields become
`Option T`; the JS falsy test `v || d` on strings / numbers is modelled
by dedicated helpers.
-/

namespace RescueChef

/-- Screen enum, from the AppScreen enum of the types module. -/
inductive AppScreen where
  | LANDING
  | RESULT
  | SHOPPING
  | COOKING
  | COOKBOOK
  | RECIPE_DETAIL
  | SUCCESS
  deriving DecidableEq, Repr

/-- The selected-mode tag ('HACK' | 'SHOP'); the state stores an Option of it. -/
inductive Mode where
  | HACK
  | SHOP
  deriving DecidableEq, Repr

/-- Save-type tag ('HACK_IT' | 'SHOP_IT'). -/
inductive SaveType where
  | HACK_IT
  | SHOP_IT
  deriving DecidableEq, Repr

/-- Difficulty enum ('Easy' | 'Medium' | 'Chef'). -/
inductive Difficulty where
  | Easy
  | Medium
  | Chef
  deriving DecidableEq, Repr

/-- Ingredient: name + quantity string pair. -/
structure Ingredient where
  name : String
  quantity : String
  deriving DecidableEq, Repr

/-- SafetyFactor: named factor with a numeric score and an icon. -/
structure SafetyFactor where
  name : String
  score : ℚ
  icon : String
  deriving DecidableEq, Repr

/-- Safety-risk enum of a substitution hack ('None' | 'Low' | 'High'). -/
inductive SafetyRisk where
  | RNone
  | RLow
  | RHigh
  deriving DecidableEq, Repr

/-- SubstitutionHack, one per missing ingredient. -/
structure SubstitutionHack where
  missing_item : String
  suggested_hack : String
  suggested_quantity : String
  effectiveness_score : ℚ
  safety_risk : SafetyRisk
  reason : String
  deriving DecidableEq, Repr

/-- Recipe: the central entity of the types module.  Optional TS fields
(imageUrl?, type?, savedDate?) become Options. -/
structure Recipe where
  id : String
  name : String
  description : String
  ingredients : List Ingredient
  already_have : List Ingredient
  need_to_buy : List Ingredient
  estimated_shopping_cost : ℚ
  steps : List String
  hacks : List SubstitutionHack
  prepTime : String
  totalTime : String
  servings : ℚ
  difficulty : Difficulty
  isHackRecommended : Bool
  safety_score : ℚ
  safety_factors : List SafetyFactor
  tips : List String
  savings_dh : ℚ
  co2_saved_kg : ℚ
  waste_avoided_g : ℚ
  imageUrl : Option String := none
  type : Option SaveType := none
  savedDate : Option String := none
  deriving DecidableEq, Repr

/-- AppState: the single root of truth. -/
structure AppState where
  screen : AppScreen
  city : String
  currentRecipe : Option Recipe
  selectedCookbookRecipe : Option Recipe
  scannedIngredients : List String
  wasteSaved : ℚ
  cookbook : List Recipe
  selectedMode : Option Mode
  deriving DecidableEq, Repr

/-- The default base state used when no persisted state exists. -/
def defaultState : AppState :=
  { screen := AppScreen.LANDING
    city := ""
    currentRecipe := none
    selectedCookbookRecipe := none
    scannedIngredients := []
    wasteSaved := 0
    cookbook := []
    selectedMode := none }

/-! ### Score normalizer -/

/-- JavaScript Math.round: round half toward positive infinity,
i.e. the floor of x + 1/2. -/
def jsRound (q : ℚ) : ℤ := ⌊q + 1/2⌋

/-- A numeric-like input to normalizeScore: a number, a numeric string,
or a percent-suffixed numeric string, each carrying its numeric value. -/
inductive NumericLike where
  | num (q : ℚ)
  | numStr (q : ℚ)
  | percentStr (q : ℚ)
  deriving DecidableEq, Repr

/-- The value produced by String(raw).replace of the percent sign followed by
parseFloat: each of the three numeric-like shapes parses to its numeric value
(the replace call removes the percent suffix before parseFloat runs). -/
def parseRawQ : NumericLike → ℚ
  | NumericLike.num q => q
  | NumericLike.numStr q => q
  | NumericLike.percentStr q => q

/-- normalizeScore, translated from the App component: parse, multiply by 100
when strictly between 0 and 1, divide by 100 when above 100, then Math.round. -/
def normalizeScore (raw : NumericLike) : ℤ :=
  let num0 := parseRawQ raw
  let num1 := if 0 < num0 ∧ num0 < 1 then num0 * 100 else num0
  let num2 := if 100 < num1 then num1 / 100 else num1
  jsRound num2

/-- Modelled from the spec (for the refinement half of claim C6): strip a
trailing percent sign, multiply by 100 if the parsed value is strictly between
0 and 1, divide by 100 if it exceeds 100, round to nearest integer. -/
def specNormalize (raw : NumericLike) : ℤ :=
  let v := parseRawQ raw
  let fracAdjusted := if 0 < v ∧ v < 1 then v * 100 else v
  let magAdjusted := if 100 < fracAdjusted then fracAdjusted / 100 else fracAdjusted
  jsRound magAdjusted

/-! ### Reducers translated from the App component -/

/-- isRecipeSaved: whether a recipe id already occurs in the cookbook.
The TS signature takes an optional id; absence returns false. -/
def isRecipeSaved (s : AppState) (recipeId : Option String) : Bool :=
  match recipeId with
  | none => false
  | some rid => s.cookbook.any (fun r => r.id = rid)

/-- saveRecipe: no-op when there is no current recipe; no-op (a toast only)
when the id is already saved; otherwise stamp the current recipe with the
save-type tag and the formatted date and prepend it to the cookbook.  The
date string produced by the Date API is passed in as a parameter. -/
def saveRecipe (t : SaveType) (dateStr : String) (s : AppState) : AppState :=
  match s.currentRecipe with
  | none => s
  | some current =>
    if isRecipeSaved s (some current.id) then s
    else
      let recipeToSave : Recipe := { current with type := some t, savedDate := some dateStr }
      { s with cookbook := recipeToSave :: s.cookbook }

/-- finishCooking: no-op when there is no current recipe; otherwise add the
savings increment to the lifetime counter and go to the SUCCESS screen.  The
JS expression with the or-fallback on savings_dh reads the default 5 when
savings_dh is falsy (zero); otherwise the recipe value. -/
def finishCooking (s : AppState) : AppState :=
  match s.currentRecipe with
  | none => s
  | some current =>
    let savings : ℚ :=
      match s.selectedMode with
      | some Mode.HACK => if current.savings_dh = 0 then 5 else current.savings_dh
      | _ => 5
    { s with wasteSaved := s.wasteSaved + savings, screen := AppScreen.SUCCESS }

/-- removeIngredient: keep exactly the pantry entries whose position differs
from the clicked index (the filter on index inequality of the source). -/
def removeIngredient (idx : ℤ) (s : AppState) : AppState :=
  { s with scannedIngredients :=
      ((s.scannedIngredients.enum.filter (fun p => (p.1 : ℤ) ≠ idx)).map (fun p => p.2)) }

/-- The background image-arrival handler of generateDecision: the promise
callback first tests the illustration for truthiness (null or the empty
string is dropped), then applies the functional state update, which replaces
only the imageUrl of the current recipe and only when the current recipe is
non-null and its id equals the id the request was issued for. -/
def applyImage (requestedId : String) (illustration : Option String) (s : AppState) : AppState :=
  match illustration with
  | none => s
  | some img =>
    if img = "" then s
    else
      match s.currentRecipe with
      | some cur =>
        if cur.id = requestedId then
          { s with currentRecipe := some { cur with imageUrl := some img } }
        else s
      | none => s

/-! ### Finish-cooking sequences (for the lifetime-counter claim)

A sequence of finish actions is modelled as a fold: before each finish the
environment (the user walking the app between sessions) may have installed a
fresh current recipe and selected mode — finishCooking itself never changes
either — and then finishCooking runs. -/

/-- The recipe slot and mode in force at one finish action of a sequence. -/
structure FinishCtx where
  recipe : Option Recipe
  mode : Option Mode
  deriving DecidableEq, Repr

/-- Install the context of one finish action into the state. -/
def setCtx (s : AppState) (c : FinishCtx) : AppState :=
  { s with currentRecipe := c.recipe, selectedMode := c.mode }

/-- Run a sequence of finishCooking actions, each in its own context. -/
def runFinishes (s : AppState) (ctxs : List FinishCtx) : AppState :=
  ctxs.foldl (fun st c => finishCooking (setCtx st c)) s

/-- The per-action savings increment the code computes for a context with a
present recipe (the claim's per-action increment). -/
def savingsIncrement (r : Recipe) (m : Option Mode) : ℚ :=
  match m with
  | some Mode.HACK => if r.savings_dh = 0 then 5 else r.savings_dh
  | _ => 5

/-- The per-action increment of a finish context: the code's increment when
a recipe is present, zero when the action is a no-op. -/
def ctxIncrement (c : FinishCtx) : ℚ :=
  match c.recipe with
  | some r => savingsIncrement r c.mode
  | none => 0

/-! ### Detail-view recipe defaulting (safeRecipe)

The detail renderer first rebuilds the recipe with safe defaults.  Fields of
the raw object may be absent or wrongly typed, because the object comes from
loosely validated external JSON or a compacted persisted copy.  An array
field is kept only when Array.isArray holds; a scalar string/number field is
defaulted through the JS or-operator, which replaces falsy values (absent,
empty string, zero). -/

/-- A raw array-typed field: absent, present but not an array, or an array. -/
inductive RawArr (α : Type) where
  | absent
  | notArray
  | arr (l : List α)
  deriving DecidableEq, Repr

/-- Array.isArray test on a raw field, keeping the array and defaulting
everything else to the empty list. -/
def arrOrEmpty {α : Type} : RawArr α → List α
  | RawArr.arr l => l
  | _ => []

/-- JS or-fallback on an optional string: absent or empty falls back. -/
def jsOrStr (v : Option String) (d : String) : String :=
  match v with
  | none => d
  | some str => if str = "" then d else str

/-- JS or-fallback on an optional number: absent or zero falls back. -/
def jsOrQ (v : Option ℚ) (d : ℚ) : ℚ :=
  match v with
  | none => d
  | some q => if q = 0 then d else q

/-- JS expression forcing an optional image string to null when falsy. -/
def jsOrNull (v : Option String) : Option String :=
  match v with
  | none => none
  | some str => if str = "" then none else some str

/-- A raw recipe object as the detail view may receive it: the fields the
safeRecipe construction touches, each possibly absent or (for arrays)
wrongly typed. -/
structure RawRecipe where
  name : Option String
  description : Option String
  hacks : RawArr SubstitutionHack
  ingredients : RawArr Ingredient
  steps : RawArr String
  tips : RawArr String
  safety_factors : RawArr SafetyFactor
  already_have : RawArr Ingredient
  need_to_buy : RawArr Ingredient
  safety_score : Option ℚ
  difficulty : Option String
  imageUrl : Option String
  deriving DecidableEq, Repr

/-- The defaulted recipe produced by the safeRecipe construction of the
detail renderer (only the fields the construction writes; the object spread
passes every other field through unchanged). -/
structure SafeRecipe where
  name : String
  description : String
  hacks : List SubstitutionHack
  ingredients : List Ingredient
  steps : List String
  tips : List String
  safety_factors : List SafetyFactor
  already_have : List Ingredient
  need_to_buy : List Ingredient
  safety_score : ℚ
  difficulty : String
  imageUrl : Option String
  deriving DecidableEq, Repr

/-- safeRecipe, translated field by field from the detail renderer.  It is a
total function: no input makes it throw. -/
def safeRecipe (r : RawRecipe) : SafeRecipe :=
  { hacks := arrOrEmpty r.hacks
    ingredients := arrOrEmpty r.ingredients
    steps := arrOrEmpty r.steps
    tips := arrOrEmpty r.tips
    safety_factors := arrOrEmpty r.safety_factors
    already_have := arrOrEmpty r.already_have
    need_to_buy := arrOrEmpty r.need_to_buy
    safety_score := jsOrQ r.safety_score 0
    difficulty := jsOrStr r.difficulty "Medium"
    name := jsOrStr r.name "Untitled Recipe"
    description := jsOrStr r.description ""
    imageUrl := jsOrNull r.imageUrl }

/-- safeRecipe restricted to a well-typed Recipe (the case arising inside the
running state machine, where every slot holds a typed Recipe): the array
fields pass the Array.isArray test and stay unchanged, the enum difficulty is
a nonempty string and stays unchanged, and the falsy-defaulting applies to
name, description, safety_score and imageUrl. -/
def safeRecipeT (r : Recipe) : Recipe :=
  { r with
    safety_score := if r.safety_score = 0 then 0 else r.safety_score
    name := if r.name = "" then "Untitled Recipe" else r.name
    description := if r.description = "" then "" else r.description
    imageUrl := jsOrNull r.imageUrl }

/-! ### Persistence

The save effect writes two independently keyed entries: the serialized state
with every image payload replaced by the empty string, and the lifetime
counter on its own key.  The load path takes the saved state when present
(the default state otherwise) and then, when the counter key holds a truthy
(nonempty) string, overrides wasteSaved with parseInt of it.  parseInt with
radix 10 skips leading whitespace, accepts an optional sign and the longest
digit prefix, and yields NaN when no digit follows; NaN has no rational
counterpart, so the load function returns an Option and yields none exactly
in the NaN case. -/

/-- Replace the image payload of a recipe by the empty string. -/
def stripImage (r : Recipe) : Recipe := { r with imageUrl := some "" }

/-- The object serialized under the state key: the state with images stripped
from the cookbook, the current recipe and the selected cookbook recipe. -/
def stateToSave (s : AppState) : AppState :=
  { s with
    cookbook := s.cookbook.map stripImage
    currentRecipe := s.currentRecipe.map stripImage
    selectedCookbookRecipe := s.selectedCookbookRecipe.map stripImage }

/-- The two independently keyed entries of the browser store, as written by
the persistence effect.  The counter entry holds the numeric value whose
decimal rendering toString produces. -/
structure SavedStore where
  rescue_chef_state : AppState
  totalSavings : ℚ
  deriving DecidableEq, Repr

/-- The persistence effect: serialize the stripped state under one key and
the lifetime counter under the other. -/
def persist (s : AppState) : SavedStore :=
  { rescue_chef_state := stateToSave s, totalSavings := s.wasteSaved }

/-- Decimal value of a digit character list. -/
def digitsToNat (l : List Char) : ℕ :=
  l.foldl (fun a c => a * 10 + (c.toNat - 48)) 0

/-- parseInt with radix 10: skip leading whitespace, read an optional sign and
the longest digit prefix; none models the NaN result when no digit is read. -/
def jsParseInt (str : String) : Option ℤ :=
  let l := str.data.dropWhile (fun c => c = ' ' ∨ c = '\t' ∨ c = '\n' ∨ c = '\r')
  match l with
  | '-' :: rest =>
    let d := rest.takeWhile Char.isDigit
    if d = [] then none else some (-(digitsToNat d : ℤ))
  | '+' :: rest =>
    let d := rest.takeWhile Char.isDigit
    if d = [] then none else some ((digitsToNat d : ℤ))
  | other =>
    let d := other.takeWhile Char.isDigit
    if d = [] then none else some ((digitsToNat d : ℤ))

/-- The initial-state load: take the saved state when present, the default
base state otherwise; when the counter key holds a truthy (nonempty) string,
override wasteSaved with its parseInt value.  The none result models the
state whose wasteSaved the code sets to NaN. -/
def loadState (saved : Option AppState) (lifetimeSaved : Option String) : Option AppState :=
  let baseState := saved.getD defaultState
  match lifetimeSaved with
  | none => some baseState
  | some str =>
    if str = "" then some baseState
    else (jsParseInt str).map (fun k : ℤ => { baseState with wasteSaved := (k : ℚ) })

/-! ### The screen/state machine

The component's full mutable state is the AppState plus the cooking step
index (a separate component-local state variable, reset to 0 by every
transition that enters the COOKING screen).  Each user or completion event
becomes an action; an action whose rendering guard does not hold (its button
is not on the active screen, or the renderer bails out on a null recipe)
leaves the state unchanged.  Reachability is taken from a fresh session
(no persisted state), with the two asynchronous completions — recipe
generation and image arrival — allowed to land at any screen. -/

/-- The active recipe of the detail view: the selected cookbook recipe when
present (objects are truthy), the current recipe otherwise. -/
def activeDetailRecipe (s : AppState) : Option Recipe :=
  match s.selectedCookbookRecipe with
  | some r => some r
  | none => s.currentRecipe

/-- The magic-edit success handler: replace the image of the active recipe;
from the detail screen this writes the selected-cookbook slot and updates the
cookbook entry with the matching id in place. -/
def applyMagicEdit (newImage : String) (s : AppState) : AppState :=
  match activeDetailRecipe s with
  | none => s
  | some active =>
    match active.imageUrl with
    | none => s
    | some u =>
      if u = "" then s
      else if newImage = "" then s
      else
        let updated : Recipe := { active with imageUrl := some newImage }
        if s.screen = AppScreen.RECIPE_DETAIL then
          { s with
            selectedCookbookRecipe := some updated
            cookbook := s.cookbook.map (fun r => if r.id = updated.id then updated else r) }
        else { s with currentRecipe := some updated }

/-- Set-semantics merge of freshly scanned ingredients into the pantry list
(JS Set keeps the first occurrence, in insertion order). -/
def mergeScanned (prev newItems : List String) : List String :=
  (prev ++ newItems).foldl (fun acc x => if x ∈ acc then acc else acc ++ [x]) []

/-- Machine state: the root AppState plus the cooking step index. -/
structure MState where
  app : AppState
  stepIndex : ℕ
  deriving DecidableEq, Repr

/-- Fresh-session initial machine state. -/
def initM : MState := { app := defaultState, stepIndex := 0 }

/-- The user and completion events of the component. -/
inductive Action where
  | generate (r : Recipe)
  | imageArrives (requestedId : String) (illustration : Option String)
  | cookWithHacks
  | shopIt
  | startCookingFromShopping
  | homeNav
  | openCookbook
  | selectCookbook (r : Recipe)
  | backFromDetail
  | cookNow
  | prevStep
  | nextStep
  | finishStep
  | backFromCooking
  | backFromShopping
  | saveAct (t : SaveType) (dateStr : String)
  | magicEdit (newImage : String)
  | setCity (c : String)
  | addIngredientAct (nm : String)
  | removeIngredientAct (i : ℤ)
  | scanArrives (ingredients : List String)

/-- One step of the machine.  Guards mirror where each handler is rendered
and the early returns of the handlers themselves. -/
def stepFn (m : MState) (a : Action) : MState :=
  match a with
  | Action.generate r =>
    { app := { m.app with
        currentRecipe := some { r with imageUrl := some "" }
        screen := AppScreen.RESULT
        selectedMode := none }
      stepIndex := m.stepIndex }
  | Action.imageArrives rid ill => { m with app := applyImage rid ill m.app }
  | Action.cookWithHacks =>
    if m.app.screen = AppScreen.RESULT then
      match m.app.currentRecipe with
      | some r =>
        { app := { m.app with
            currentRecipe := some r
            selectedMode := some Mode.HACK
            screen := AppScreen.COOKING }
          stepIndex := 0 }
      | none => m
    else m
  | Action.shopIt =>
    if m.app.screen = AppScreen.RESULT then
      match m.app.currentRecipe with
      | some r =>
        { m with app := { m.app with
            currentRecipe := some r
            selectedMode := some Mode.SHOP
            screen := AppScreen.SHOPPING } }
      | none => m
    else m
  | Action.startCookingFromShopping =>
    if m.app.screen = AppScreen.SHOPPING then
      { app := { m.app with screen := AppScreen.COOKING }, stepIndex := 0 }
    else m
  | Action.homeNav => { m with app := { m.app with screen := AppScreen.LANDING } }
  | Action.openCookbook => { m with app := { m.app with screen := AppScreen.COOKBOOK } }
  | Action.selectCookbook r =>
    if m.app.screen = AppScreen.COOKBOOK ∧ r ∈ m.app.cookbook then
      { m with app := { m.app with
          selectedCookbookRecipe := some r
          screen := AppScreen.RECIPE_DETAIL } }
    else m
  | Action.backFromDetail =>
    if m.app.screen = AppScreen.RECIPE_DETAIL then
      { m with app := { m.app with
          screen := if m.app.selectedCookbookRecipe.isSome
                    then AppScreen.COOKBOOK else AppScreen.RESULT } }
    else m
  | Action.cookNow =>
    if m.app.screen = AppScreen.RECIPE_DETAIL then
      match activeDetailRecipe m.app with
      | some rec =>
        { app := { m.app with
            currentRecipe := some (safeRecipeT rec)
            screen := AppScreen.COOKING }
          stepIndex := 0 }
      | none => m
    else m
  | Action.prevStep =>
    if m.app.screen = AppScreen.COOKING then
      match m.app.currentRecipe with
      | some _ => if m.stepIndex = 0 then m else { m with stepIndex := m.stepIndex - 1 }
      | none => m
    else m
  | Action.nextStep =>
    if m.app.screen = AppScreen.COOKING then
      match m.app.currentRecipe with
      | some r =>
        if (m.stepIndex : ℤ) = (r.steps.length : ℤ) - 1 then m
        else { m with stepIndex := m.stepIndex + 1 }
      | none => m
    else m
  | Action.finishStep =>
    if m.app.screen = AppScreen.COOKING then
      match m.app.currentRecipe with
      | some r =>
        if (m.stepIndex : ℤ) = (r.steps.length : ℤ) - 1 then
          { m with app := finishCooking m.app }
        else m
      | none => m
    else m
  | Action.backFromCooking =>
    if m.app.screen = AppScreen.COOKING then
      { m with app := { m.app with screen := AppScreen.RESULT } }
    else m
  | Action.backFromShopping =>
    if m.app.screen = AppScreen.SHOPPING then
      { m with app := { m.app with screen := AppScreen.RESULT } }
    else m
  | Action.saveAct t dateStr => { m with app := saveRecipe t dateStr m.app }
  | Action.magicEdit newImage =>
    if m.app.screen = AppScreen.RECIPE_DETAIL then
      { m with app := applyMagicEdit newImage m.app }
    else m
  | Action.setCity c => { m with app := { m.app with city := c } }
  | Action.addIngredientAct nm =>
    if nm.trim = "" then m
    else { m with app := { m.app with
        scannedIngredients := m.app.scannedIngredients ++ [nm.trim] } }
  | Action.removeIngredientAct i => { m with app := removeIngredient i m.app }
  | Action.scanArrives ingredients =>
    { m with app := { m.app with
        scannedIngredients := mergeScanned m.app.scannedIngredients ingredients } }

/-- Whether an action respects an environment restriction P on the recipes
the generation service can deliver; every other action is unrestricted. -/
def ActOK (P : Recipe → Prop) : Action → Prop
  | Action.generate r => P r
  | _ => True

/-- Reachability from the fresh-session initial state, under an environment
restriction P on generated recipes. -/
inductive Reach (P : Recipe → Prop) : MState → Prop where
  | init : Reach P initM
  | step (m : MState) (a : Action) : Reach P m → ActOK P a → Reach P (stepFn m a)

/-- The detail-screen half of the claimed invariant. -/
def DetailInv (m : MState) : Prop :=
  m.app.screen = AppScreen.RECIPE_DETAIL →
    m.app.currentRecipe ≠ none ∨ m.app.selectedCookbookRecipe ≠ none

/-- The cooking-screen half of the claimed invariant. -/
def CookingInv (m : MState) : Prop :=
  m.app.screen = AppScreen.COOKING →
    ∃ r, m.app.currentRecipe = some r ∧ m.stepIndex < r.steps.length

/-- The inductive strengthening of the claimed invariant: every recipe slot
and cookbook entry carries a nonempty step list, the shopping screen always
has a current recipe, and the two claimed screen invariants hold. -/
structure InvFull (m : MState) : Prop where
  curSteps : ∀ r, m.app.currentRecipe = some r → r.steps ≠ []
  selSteps : ∀ r, m.app.selectedCookbookRecipe = some r → r.steps ≠ []
  cbSteps : ∀ r ∈ m.app.cookbook, r.steps ≠ []
  shopCur : m.app.screen = AppScreen.SHOPPING → m.app.currentRecipe ≠ none
  detail : DetailInv m
  cooking : CookingInv m

/-! ### Concrete sample data used by witnesses and counterexamples -/

/-- A concrete sample recipe used by witness statements. -/
def sampleRecipe : Recipe :=
  { id := "rid", name := "n", description := "", ingredients := [],
    already_have := [], need_to_buy := [], estimated_shopping_cost := 0,
    steps := ["s"], hacks := [], prepTime := "", totalTime := "",
    servings := 1, difficulty := Difficulty.Easy, isHackRecommended := false,
    safety_score := 80, safety_factors := [], tips := [],
    savings_dh := 10, co2_saved_kg := 1, waste_avoided_g := 100 }

/-- The stamped copy of the sample recipe as saved into the cookbook. -/
def sampleSaved : Recipe :=
  { sampleRecipe with type := some SaveType.HACK_IT, savedDate := some "d" }

/-- A concrete state whose current recipe is already saved in the cookbook. -/
def stateSavedSample : AppState :=
  { defaultState with currentRecipe := some sampleRecipe, cookbook := [sampleSaved] }

/-- A concrete raw recipe with hacks and safety score absent (the spec test
case), a wrongly-typed ingredients field, and a present steps field. -/
def rawSample : RawRecipe :=
  { name := none, description := none, hacks := RawArr.absent,
    ingredients := RawArr.notArray, steps := RawArr.arr ["s"],
    tips := RawArr.absent, safety_factors := RawArr.absent,
    already_have := RawArr.absent, need_to_buy := RawArr.absent,
    safety_score := none, difficulty := none, imageUrl := none }

/-- A recipe carrying a negative savings metric, as nothing in the code
prevents the generation service from delivering one. -/
def negSavingsRecipe : Recipe := { sampleRecipe with savings_dh := -3 }

/-- A state holding the negative-savings recipe in HACK mode. -/
def negSavingsState : AppState :=
  { defaultState with currentRecipe := some negSavingsRecipe,
                      selectedMode := some Mode.HACK }

/-- A recipe whose step list is empty, as the loosely validated generation
response can deliver. -/
def emptyStepsRecipe : Recipe := { sampleRecipe with steps := [] }

/-- The machine state after generating the empty-steps recipe and starting
to cook with hacks. -/
def cexM : MState :=
  stepFn (stepFn initM (Action.generate emptyStepsRecipe)) Action.cookWithHacks

/-- The machine state after generating the sample recipe and starting to
cook with hacks. -/
def goodM : MState :=
  stepFn (stepFn initM (Action.generate sampleRecipe)) Action.cookWithHacks

/-! ### Theorems -/

/-- Lower bound for the JS rounding of a nonnegative value. -/
lemma jsRound_nonneg (q : ℚ) (h : 0 ≤ q) : 0 ≤ jsRound q := by
  unfold jsRound
  exact Int.le_floor.mpr (by push_cast; linarith)

/-- Values below 100.5 round to at most 100. -/
lemma jsRound_le_100 (q : ℚ) (h : q < 201/2) : jsRound q ≤ 100 := by
  unfold jsRound
  have hlt : ⌊q + 1/2⌋ < 101 := Int.floor_lt.mpr (by push_cast; linarith)
  omega

/-- C6: normalizeScore implements the spec algorithm (strip a trailing
percent sign, scale fractions in (0,1) by 100, divide values above 100 by
100, round to nearest), and in particular maps 85 to 85, 0.85 to 85, 8500 to
85, the percent string 72 to 72, and 150 to 2. -/
theorem claim_C6 :
    (∀ x : NumericLike, normalizeScore x = specNormalize x) ∧
    normalizeScore (NumericLike.num 85) = 85 ∧
    normalizeScore (NumericLike.num (85/100)) = 85 ∧
    normalizeScore (NumericLike.num 8500) = 85 ∧
    normalizeScore (NumericLike.percentStr 72) = 72 ∧
    normalizeScore (NumericLike.num 150) = 2 := by
  refine ⟨fun x => rfl, ?_, ?_, ?_, ?_, ?_⟩ <;>
    norm_num [normalizeScore, parseRawQ, jsRound]

/-- C1 (counterexample): the numeric input 20000 normalizes to 200, which
lies outside the interval from 0 to 100 — so normalizeScore does not map
every numeric-like input into that interval. -/
theorem claim_C1_counterexample :
    normalizeScore (NumericLike.num 20000) = 200 ∧
    ¬ (0 ≤ normalizeScore (NumericLike.num 20000) ∧
       normalizeScore (NumericLike.num 20000) ≤ 100) := by
  norm_num [normalizeScore, parseRawQ, jsRound]

/-- C1 (amended): for every numeric-like input whose parsed value is
nonnegative and below 10050, normalizeScore returns an integer in the
interval from 0 to 100. -/
theorem claim_C1_amended (x : NumericLike)
    (h0 : 0 ≤ parseRawQ x) (h1 : parseRawQ x < 10050) :
    0 ≤ normalizeScore x ∧ normalizeScore x ≤ 100 := by
  unfold normalizeScore
  dsimp only
  split_ifs with hfrac hdiv hdiv2
  · exfalso
    rcases hfrac with ⟨_, hb⟩
    nlinarith
  · refine ⟨jsRound_nonneg _ (by nlinarith [hfrac.1]), jsRound_le_100 _ (by nlinarith [hfrac.2])⟩
  · refine ⟨jsRound_nonneg _ (div_nonneg h0 (by norm_num)), jsRound_le_100 _ ?_⟩
    rw [div_lt_iff₀ (by norm_num : (0:ℚ) < 100)]
    linarith
  · push_neg at hdiv2
    exact ⟨jsRound_nonneg _ h0, jsRound_le_100 _ (by linarith)⟩

/-- C1 (witness): the amended bound applied at the concrete input 85. -/
theorem claim_C1_witness :
    0 ≤ normalizeScore (NumericLike.num 85) ∧
    normalizeScore (NumericLike.num 85) ≤ 100 :=
  claim_C1_amended (NumericLike.num 85) (by norm_num [parseRawQ]) (by norm_num [parseRawQ])

/-- C9: when there is no current recipe, both saveRecipe and finishCooking
leave the entire AppState unchanged. -/
theorem claim_C9 (s : AppState) (h : s.currentRecipe = none)
    (t : SaveType) (dateStr : String) :
    saveRecipe t dateStr s = s ∧ finishCooking s = s := by
  constructor
  · unfold saveRecipe
    rw [h]
  · unfold finishCooking
    rw [h]

/-- C9 (witness): the no-recipe no-op behavior at the default state. -/
theorem claim_C9_witness :
    saveRecipe SaveType.HACK_IT "1/1/2026" defaultState = defaultState ∧
    finishCooking defaultState = defaultState :=
  claim_C9 defaultState rfl SaveType.HACK_IT "1/1/2026"

/-- Filtering an enumerated list by index inequality drops exactly the
element at that index when the index is in range, and nothing otherwise. -/
lemma enumFrom_filter_ne (i : ℤ) (l : List String) : ∀ n : ℕ,
    ((l.enumFrom n).filter (fun p => (p.1 : ℤ) ≠ i)).map (fun p => p.2) =
      if (n : ℤ) ≤ i ∧ i < (n : ℤ) + l.length then l.eraseIdx (i - n).toNat else l := by
  induction l with
  | nil => intro n; simp
  | cons a l ih =>
    intro n
    simp only [List.enumFrom_cons, List.filter_cons]
    by_cases hni : (n : ℤ) = i
    · rw [if_neg (by simp [hni])]
      rw [ih (n + 1)]
      rw [if_neg (by push_cast; omega)]
      rw [if_pos (by simp only [List.length_cons]; push_cast; omega)]
      have h0 : (i - (n : ℤ)).toNat = 0 := by omega
      rw [h0, List.eraseIdx_cons_zero]
    · rw [if_pos (by simp [hni])]
      rw [List.map_cons, ih (n + 1)]
      by_cases hin : ((n : ℤ) ≤ i ∧ i < (n : ℤ) + ((a :: l).length : ℤ))
      · simp only [List.length_cons] at hin
        rw [if_pos (by push_cast at hin ⊢; omega)]
        rw [if_pos (by simp only [List.length_cons]; push_cast at hin ⊢; omega)]
        have h2 : (i - (n : ℤ)).toNat = ((i - ((n : ℤ) + 1)).toNat) + 1 := by
          rcases hin with ⟨h3, _⟩
          omega
        have h3 : ((n + 1 : ℕ) : ℤ) = (n : ℤ) + 1 := by push_cast; ring
        rw [h2, h3, List.eraseIdx_cons_succ]
      · rw [if_neg (by simp only [List.length_cons] at hin; push_cast at hin ⊢; omega)]
        rw [if_neg hin]

/-- C10: removeIngredient leaves the pantry unchanged when the index is out
of range, removes exactly the element at the given position (preserving the
order of everything else) when it is in range, and never touches any other
state field; it is a total function. -/
theorem claim_C10 (s : AppState) (i : ℤ) :
    removeIngredient i s =
      { s with scannedIngredients :=
          if 0 ≤ i ∧ i < (s.scannedIngredients.length : ℤ)
          then s.scannedIngredients.eraseIdx i.toNat
          else s.scannedIngredients } := by
  unfold removeIngredient
  have henum : s.scannedIngredients.enum = s.scannedIngredients.enumFrom 0 := rfl
  have h := enumFrom_filter_ne i s.scannedIngredients 0
  rw [henum, h]
  simp only [Nat.cast_zero, zero_add, sub_zero]

/-- C4: the background image result is dropped whenever the current recipe
is absent or its id differs from the id the request was issued for, and when
the id matches (and the illustration is a truthy string) the update rewrites
exactly the imageUrl of the current recipe and nothing else. -/
theorem claim_C4 (s : AppState) (requestedId : String) (ill : Option String) :
    (s.currentRecipe = none → applyImage requestedId ill s = s) ∧
    (∀ cur, s.currentRecipe = some cur → cur.id ≠ requestedId →
      applyImage requestedId ill s = s) ∧
    (∀ cur img, s.currentRecipe = some cur → cur.id = requestedId →
      ill = some img → img ≠ "" →
      applyImage requestedId ill s =
        { s with currentRecipe := some { cur with imageUrl := some img } }) := by
  refine ⟨?_, ?_, ?_⟩
  · intro h
    cases ill with
    | none => rfl
    | some img =>
      simp only [applyImage, h]
      split_ifs <;> rfl
  · intro cur hcur hne
    cases ill with
    | none => rfl
    | some img =>
      simp only [applyImage, hcur]
      split_ifs <;> rfl
  · intro cur img hcur hid hill hne
    subst hill
    simp only [applyImage, hcur]
    rw [if_neg hne, if_pos hid]

/-- C4 (witness): the guarded update evaluated at a concrete state whose
current recipe has the requested id. -/
theorem claim_C4_witness :
    applyImage "rid" (some "img") { defaultState with currentRecipe := some sampleRecipe } =
      { defaultState with currentRecipe := some { sampleRecipe with imageUrl := some "img" } } :=
  (claim_C4 { defaultState with currentRecipe := some sampleRecipe } "rid"
    (some "img")).2.2 sampleRecipe "img" rfl rfl rfl (by decide)

/-- C7: the safety-defaulting step keeps each list field exactly when the raw
field is a sequence and replaces it by the empty sequence otherwise, and the
scalar fields fall back to their fixed defaults when the raw field is falsy
(absent, or the empty string / zero); being a total function, the defaulting
never throws. -/
theorem claim_C7 (r : RawRecipe) :
    (∀ l, r.hacks = RawArr.arr l → (safeRecipe r).hacks = l) ∧
    ((r.hacks = RawArr.absent ∨ r.hacks = RawArr.notArray) → (safeRecipe r).hacks = []) ∧
    (∀ l, r.ingredients = RawArr.arr l → (safeRecipe r).ingredients = l) ∧
    ((r.ingredients = RawArr.absent ∨ r.ingredients = RawArr.notArray) → (safeRecipe r).ingredients = []) ∧
    (∀ l, r.steps = RawArr.arr l → (safeRecipe r).steps = l) ∧
    ((r.steps = RawArr.absent ∨ r.steps = RawArr.notArray) → (safeRecipe r).steps = []) ∧
    (∀ l, r.tips = RawArr.arr l → (safeRecipe r).tips = l) ∧
    ((r.tips = RawArr.absent ∨ r.tips = RawArr.notArray) → (safeRecipe r).tips = []) ∧
    (∀ l, r.safety_factors = RawArr.arr l → (safeRecipe r).safety_factors = l) ∧
    ((r.safety_factors = RawArr.absent ∨ r.safety_factors = RawArr.notArray) → (safeRecipe r).safety_factors = []) ∧
    (∀ l, r.already_have = RawArr.arr l → (safeRecipe r).already_have = l) ∧
    ((r.already_have = RawArr.absent ∨ r.already_have = RawArr.notArray) → (safeRecipe r).already_have = []) ∧
    (∀ l, r.need_to_buy = RawArr.arr l → (safeRecipe r).need_to_buy = l) ∧
    ((r.need_to_buy = RawArr.absent ∨ r.need_to_buy = RawArr.notArray) → (safeRecipe r).need_to_buy = []) ∧
    ((r.name = none ∨ r.name = some "") → (safeRecipe r).name = "Untitled Recipe") ∧
    ((r.description = none ∨ r.description = some "") → (safeRecipe r).description = "") ∧
    ((r.safety_score = none ∨ r.safety_score = some 0) → (safeRecipe r).safety_score = 0) ∧
    ((r.difficulty = none ∨ r.difficulty = some "") → (safeRecipe r).difficulty = "Medium") ∧
    ((r.imageUrl = none ∨ r.imageUrl = some "") → (safeRecipe r).imageUrl = none) := by
  exact ⟨fun l h => by simp [safeRecipe, arrOrEmpty, h],
    fun h => by rcases h with h | h <;> simp [safeRecipe, arrOrEmpty, h],
    fun l h => by simp [safeRecipe, arrOrEmpty, h],
    fun h => by rcases h with h | h <;> simp [safeRecipe, arrOrEmpty, h],
    fun l h => by simp [safeRecipe, arrOrEmpty, h],
    fun h => by rcases h with h | h <;> simp [safeRecipe, arrOrEmpty, h],
    fun l h => by simp [safeRecipe, arrOrEmpty, h],
    fun h => by rcases h with h | h <;> simp [safeRecipe, arrOrEmpty, h],
    fun l h => by simp [safeRecipe, arrOrEmpty, h],
    fun h => by rcases h with h | h <;> simp [safeRecipe, arrOrEmpty, h],
    fun l h => by simp [safeRecipe, arrOrEmpty, h],
    fun h => by rcases h with h | h <;> simp [safeRecipe, arrOrEmpty, h],
    fun l h => by simp [safeRecipe, arrOrEmpty, h],
    fun h => by rcases h with h | h <;> simp [safeRecipe, arrOrEmpty, h],
    fun h => by rcases h with h | h <;> simp [safeRecipe, jsOrStr, h],
    fun h => by rcases h with h | h <;> simp [safeRecipe, jsOrStr, h],
    fun h => by rcases h with h | h <;> simp [safeRecipe, jsOrQ, h],
    fun h => by rcases h with h | h <;> simp [safeRecipe, jsOrStr, h],
    fun h => by rcases h with h | h <;> simp [safeRecipe, jsOrNull, h]⟩

/-- C7 (witness): the defaulting evaluated at the concrete raw recipe. -/
theorem claim_C7_witness :
    (safeRecipe rawSample).hacks = [] ∧
    (safeRecipe rawSample).safety_score = 0 ∧
    (safeRecipe rawSample).steps = ["s"] ∧
    (safeRecipe rawSample).name = "Untitled Recipe" := by
  obtain ⟨hArr, hDef, _, _, hStepsArr, _, _, _, _, _, _, _, _, _, hName, _,
    hScore, _, _⟩ := claim_C7 rawSample
  exact ⟨hDef (Or.inl rfl), hScore (Or.inl rfl), hStepsArr ["s"] rfl, hName (Or.inl rfl)⟩

/-- Saving with no current recipe changes nothing. -/
lemma saveRecipe_none (t : SaveType) (d : String) (s : AppState)
    (h : s.currentRecipe = none) : saveRecipe t d s = s := by
  unfold saveRecipe
  rw [h]

/-- Saving a recipe whose id is already in the cookbook changes nothing. -/
lemma saveRecipe_saved (t : SaveType) (d : String) (s : AppState) (cur : Recipe)
    (hcur : s.currentRecipe = some cur)
    (h : isRecipeSaved s (some cur.id) = true) : saveRecipe t d s = s := by
  unfold saveRecipe
  rw [hcur]
  exact if_pos h

/-- Saving a fresh recipe prepends the stamped copy to the cookbook. -/
lemma saveRecipe_new (t : SaveType) (d : String) (s : AppState) (cur : Recipe)
    (hcur : s.currentRecipe = some cur)
    (h : isRecipeSaved s (some cur.id) = false) :
    saveRecipe t d s =
      { s with cookbook :=
          { cur with type := some t, savedDate := some d } :: s.cookbook } := by
  unfold saveRecipe
  rw [hcur]
  exact if_neg (by simp [h])

/-- C3: when the current recipe's id is already in the cookbook, saveRecipe
leaves the whole AppState unchanged; a second save right after a first one is
always a no-op (so the cookbook length is unchanged after the second
attempt); and saveRecipe preserves distinctness of cookbook ids, so the
cookbook never acquires two entries with the same id. -/
theorem claim_C3 (s : AppState) (t t2 : SaveType) (d d2 : String) :
    (∀ cur, s.currentRecipe = some cur → isRecipeSaved s (some cur.id) = true →
      saveRecipe t d s = s) ∧
    saveRecipe t2 d2 (saveRecipe t d s) = saveRecipe t d s ∧
    ((s.cookbook.map Recipe.id).Nodup →
      (((saveRecipe t d s).cookbook.map Recipe.id).Nodup)) := by
  refine ⟨fun cur hcur hsat => saveRecipe_saved t d s cur hcur hsat, ?_, ?_⟩
  · cases hc : s.currentRecipe with
    | none =>
      rw [saveRecipe_none t d s hc, saveRecipe_none t2 d2 s hc]
    | some cur =>
      cases hsat : isRecipeSaved s (some cur.id) with
      | true =>
        rw [saveRecipe_saved t d s cur hc hsat, saveRecipe_saved t2 d2 s cur hc hsat]
      | false =>
        rw [saveRecipe_new t d s cur hc hsat]
        apply saveRecipe_saved t2 d2 _ cur
        · exact hc
        · simp [isRecipeSaved]
  · intro hnd
    cases hc : s.currentRecipe with
    | none =>
      rw [saveRecipe_none t d s hc]
      exact hnd
    | some cur =>
      cases hsat : isRecipeSaved s (some cur.id) with
      | true =>
        rw [saveRecipe_saved t d s cur hc hsat]
        exact hnd
      | false =>
        rw [saveRecipe_new t d s cur hc hsat]
        simp only [List.map_cons, List.nodup_cons]
        refine ⟨?_, hnd⟩
        simp only [isRecipeSaved, List.any_eq_false, decide_eq_true_eq] at hsat
        simp only [List.mem_map]
        rintro ⟨r, hr, hid⟩
        exact hsat r hr hid

/-- C3 (witness): the no-change, idempotence and id-distinctness facts
evaluated at the concrete already-saved state. -/
theorem claim_C3_witness :
    saveRecipe SaveType.HACK_IT "d" stateSavedSample = stateSavedSample ∧
    saveRecipe SaveType.SHOP_IT "e"
        (saveRecipe SaveType.HACK_IT "d" stateSavedSample) =
      saveRecipe SaveType.HACK_IT "d" stateSavedSample ∧
    (((saveRecipe SaveType.HACK_IT "d" stateSavedSample).cookbook.map Recipe.id).Nodup) := by
  obtain ⟨h1, h2, h3⟩ := claim_C3 stateSavedSample SaveType.HACK_IT SaveType.SHOP_IT "d" "e"
  exact ⟨h1 sampleRecipe rfl (by decide), h2, h3 (by decide)⟩

/-- A state with a current recipe in force behaves as one finish step. -/
lemma finishCooking_some (s : AppState) (r : Recipe)
    (h : s.currentRecipe = some r) :
    finishCooking s =
      { s with wasteSaved := s.wasteSaved + savingsIncrement r s.selectedMode,
               screen := AppScreen.SUCCESS } := by
  unfold finishCooking savingsIncrement
  rw [h]

/-- The savings increment is nonnegative whenever savings_dh is. -/
lemma savingsIncrement_nonneg (r : Recipe) (m : Option Mode)
    (h : 0 ≤ r.savings_dh) : 0 ≤ savingsIncrement r m := by
  unfold savingsIncrement
  cases m with
  | none => norm_num
  | some mm =>
    cases mm with
    | HACK =>
      dsimp only
      split_ifs
      · norm_num
      · exact h
    | SHOP => norm_num

/-- C2 (amended): over any sequence of finish actions in which every action
has a current recipe with nonnegative savings_dh, the lifetime counter ends
at its start value plus the sum of the per-action increments (the recipe's
savings_dh in HACK mode when nonzero, the fixed default 5 otherwise), in
particular it never decreases, and a nonempty sequence leaves the screen on
SUCCESS. -/
theorem claim_C2_amended (s : AppState) (ctxs : List FinishCtx)
    (h : ∀ c ∈ ctxs, ∃ r, c.recipe = some r ∧ 0 ≤ r.savings_dh) :
    (runFinishes s ctxs).wasteSaved = s.wasteSaved + (ctxs.map ctxIncrement).sum ∧
    s.wasteSaved ≤ (runFinishes s ctxs).wasteSaved ∧
    (ctxs ≠ [] → (runFinishes s ctxs).screen = AppScreen.SUCCESS) := by
  induction ctxs generalizing s with
  | nil => simp [runFinishes]
  | cons c rest ih =>
    obtain ⟨r, hrec, hnn⟩ := h c (List.mem_cons_self c rest)
    have hrest : ∀ x ∈ rest, ∃ r0, x.recipe = some r0 ∧ 0 ≤ r0.savings_dh :=
      fun x hx => h x (List.mem_cons_of_mem c hx)
    have hcur : (setCtx s c).currentRecipe = some r := by simp [setCtx, hrec]
    have hstep := finishCooking_some (setCtx s c) r hcur
    have hchain : runFinishes s (c :: rest) =
        runFinishes (finishCooking (setCtx s c)) rest := rfl
    have hinc : ctxIncrement c = savingsIncrement r c.mode := by
      simp [ctxIncrement, hrec]
    obtain ⟨ihsum, ihmono, ihsucc⟩ := ih (finishCooking (setCtx s c)) hrest
    have hws : (finishCooking (setCtx s c)).wasteSaved =
        s.wasteSaved + savingsIncrement r c.mode := by
      rw [hstep]
      simp [setCtx]
    have hscr : (finishCooking (setCtx s c)).screen = AppScreen.SUCCESS := by
      simp [hstep]
    refine ⟨?_, ?_, ?_⟩
    · rw [hchain, ihsum, hws, List.map_cons, List.sum_cons, hinc]
      ring
    · rw [hchain]
      have hstepmono : s.wasteSaved ≤ (finishCooking (setCtx s c)).wasteSaved := by
        rw [hws]
        have := savingsIncrement_nonneg r c.mode hnn
        linarith
      exact le_trans hstepmono ihmono
    · intro _
      rw [hchain]
      cases hrst : rest with
      | nil =>
        simp only [hrst] at *
        simpa [runFinishes] using hscr
      | cons x xs =>
        exact (hrst ▸ ihsucc) (by simp)

/-- C2 (counterexample): a finish action in a state with no current recipe
changes nothing — the counter does not grow by the claimed default 5 and the
screen does not become SUCCESS — and a finish action on a recipe whose
savings_dh is negative strictly decreases the counter, refuting the claimed
monotonicity over all sequences. -/
theorem claim_C2_counterexample :
    runFinishes defaultState [{ recipe := none, mode := none }] = defaultState ∧
    (runFinishes defaultState [{ recipe := none, mode := none }]).wasteSaved ≠
      defaultState.wasteSaved + 5 ∧
    (runFinishes defaultState [{ recipe := none, mode := none }]).screen ≠
      AppScreen.SUCCESS ∧
    (runFinishes negSavingsState
        [{ recipe := some negSavingsRecipe, mode := some Mode.HACK }]).wasteSaved <
      negSavingsState.wasteSaved := by
  refine ⟨rfl, ?_, ?_, ?_⟩
  · show (0 : ℚ) ≠ 0 + 5
    norm_num
  · show AppScreen.LANDING ≠ AppScreen.SUCCESS
    simp
  · show (0 : ℚ) + (-3) < 0
    norm_num

/-- C2 (witness): the amended statement evaluated on a two-action sequence,
one HACK-mode finish with savings 10 and one default finish. -/
theorem claim_C2_witness :
    (runFinishes defaultState
        [{ recipe := some sampleRecipe, mode := some Mode.HACK },
         { recipe := some sampleRecipe, mode := none }]).wasteSaved =
      defaultState.wasteSaved + 15 ∧
    (runFinishes defaultState
        [{ recipe := some sampleRecipe, mode := some Mode.HACK },
         { recipe := some sampleRecipe, mode := none }]).screen =
      AppScreen.SUCCESS := by
  obtain ⟨hsum, _, hsucc⟩ := claim_C2_amended defaultState
    [{ recipe := some sampleRecipe, mode := some Mode.HACK },
     { recipe := some sampleRecipe, mode := none }]
    (by
      intro c hc
      simp only [List.mem_cons, List.not_mem_nil, or_false] at hc
      rcases hc with h | h <;> subst h <;>
        exact ⟨sampleRecipe, rfl, by norm_num [sampleRecipe]⟩)
  constructor
  · rw [hsum]
    norm_num [ctxIncrement, savingsIncrement, sampleRecipe]
  · exact hsucc (by simp)

/-- parseInt of the empty string yields NaN (no digits). -/
lemma jsParseInt_empty : jsParseInt "" = none := rfl

/-- C8: the persisted serialized state carries the empty string in place of
every image payload (in the cookbook, the current recipe and the selected
cookbook recipe) while the lifetime counter is written under its own key;
and on load a present counter value that parses to an integer overrides
whatever wasteSaved was embedded in the serialized state. -/
theorem claim_C8 (s : AppState) (saved : Option AppState) (str : String) (n : ℤ) :
    (persist s).rescue_chef_state.cookbook = s.cookbook.map stripImage ∧
    (persist s).rescue_chef_state.currentRecipe = s.currentRecipe.map stripImage ∧
    (persist s).rescue_chef_state.selectedCookbookRecipe =
      s.selectedCookbookRecipe.map stripImage ∧
    (∀ r ∈ (persist s).rescue_chef_state.cookbook, r.imageUrl = some "") ∧
    (persist s).totalSavings = s.wasteSaved ∧
    (jsParseInt str = some n →
      loadState saved (some str) =
        some { saved.getD defaultState with wasteSaved := (n : ℚ) }) := by
  refine ⟨rfl, rfl, rfl, ?_, rfl, ?_⟩
  · intro r hr
    simp only [persist, stateToSave, List.mem_map] at hr
    obtain ⟨r0, _, hr0⟩ := hr
    rw [← hr0]
    rfl
  · intro h
    have hne : str ≠ "" := by
      intro he
      rw [he, jsParseInt_empty] at h
      cases h
    unfold loadState
    dsimp only
    rw [if_neg hne, h]
    rfl

/-- C8 (witness): persisting a state holding the sample recipe everywhere
strips every image, and loading with the counter key at the string 42
overrides the embedded counter. -/
theorem claim_C8_witness :
    (persist stateSavedSample).rescue_chef_state.cookbook =
      stateSavedSample.cookbook.map stripImage ∧
    (persist stateSavedSample).totalSavings = stateSavedSample.wasteSaved ∧
    loadState (some stateSavedSample) (some "42") =
      some { stateSavedSample with wasteSaved := (42 : ℚ) } := by
  obtain ⟨h1, _, _, _, h5, h6⟩ :=
    claim_C8 stateSavedSample (some stateSavedSample) "42" 42
  exact ⟨h1, h5, h6 (by decide)⟩

/-- Case analysis on the image-arrival update: either the state is untouched,
or only the imageUrl of the (present) current recipe is replaced. -/
lemma applyImage_cases (rid : String) (ill : Option String) (s : AppState) :
    applyImage rid ill s = s ∨
    ∃ cur img, s.currentRecipe = some cur ∧
      applyImage rid ill s =
        { s with currentRecipe := some { cur with imageUrl := some img } } := by
  cases ill with
  | none => exact Or.inl rfl
  | some img =>
    by_cases he : img = ""
    · exact Or.inl (by simp [applyImage, he])
    · cases hc : s.currentRecipe with
      | none => exact Or.inl (by simp [applyImage, he, hc])
      | some cur =>
        by_cases hid : cur.id = rid
        · exact Or.inr ⟨cur, img, rfl, by simp [applyImage, he, hc, hid]⟩
        · exact Or.inl (by simp [applyImage, he, hc, hid])

/-- Case analysis on the magic-edit update from the detail screen: either the
state is untouched, or the selected slot receives the re-imaged active recipe
and the cookbook is updated in place by id. -/
lemma applyMagicEdit_detail (img : String) (s : AppState)
    (hs : s.screen = AppScreen.RECIPE_DETAIL) :
    applyMagicEdit img s = s ∨
    ∃ active, activeDetailRecipe s = some active ∧
      applyMagicEdit img s =
        { s with
          selectedCookbookRecipe := some { active with imageUrl := some img }
          cookbook := s.cookbook.map
            (fun r => if r.id = active.id
                      then { active with imageUrl := some img } else r) } := by
  cases hact : activeDetailRecipe s with
  | none => exact Or.inl (by simp [applyMagicEdit, hact])
  | some active =>
    cases himg : active.imageUrl with
    | none => exact Or.inl (by simp [applyMagicEdit, hact, himg])
    | some u =>
      by_cases hu : u = ""
      · exact Or.inl (by simp [applyMagicEdit, hact, himg, hu])
      · by_cases hni : img = ""
        · exact Or.inl (by simp [applyMagicEdit, hact, himg, hu, hni])
        · refine Or.inr ⟨active, rfl, ?_⟩
          simp [applyMagicEdit, hact, himg, hu, hni, hs]

/-- The active detail recipe always carries nonempty steps under the
strengthened invariant. -/
lemma activeDetail_steps (m : MState) (hI : InvFull m) (rec : Recipe)
    (h : activeDetailRecipe m.app = some rec) : rec.steps ≠ [] := by
  unfold activeDetailRecipe at h
  cases hsel : m.app.selectedCookbookRecipe with
  | none =>
    rw [hsel] at h
    exact hI.curSteps rec h
  | some a =>
    rw [hsel] at h
    have h2 : a = rec := Option.some.inj h
    subst h2
    exact hI.selSteps a hsel

/-- Every action available to the component preserves the strengthened
invariant, provided generated recipes carry nonempty step lists. -/
lemma invFull_step (m : MState) (a : Action) (hI : InvFull m)
    (hA : ActOK (fun r => r.steps ≠ []) a) : InvFull (stepFn m a) := by
  cases a with
  | generate r =>
    have hA2 : r.steps ≠ [] := hA
    simp only [stepFn]
    refine ⟨?_, ?_, ?_, ?_, ?_, ?_⟩
    · intro r0 h0
      have h2 := Option.some.inj h0
      subst h2
      exact hA2
    · intro r0 h0
      exact hI.selSteps r0 h0
    · intro r0 h0
      exact hI.cbSteps r0 h0
    · intro hscr
      exact absurd (show AppScreen.RESULT = AppScreen.SHOPPING from hscr) (by decide)
    · intro hscr
      exact absurd (show AppScreen.RESULT = AppScreen.RECIPE_DETAIL from hscr) (by decide)
    · intro hscr
      exact absurd (show AppScreen.RESULT = AppScreen.COOKING from hscr) (by decide)
  | imageArrives rid ill =>
    simp only [stepFn]
    rcases applyImage_cases rid ill m.app with h | ⟨cur, img, hc, h⟩
    · rw [h]
      exact hI
    · rw [h]
      refine ⟨?_, ?_, ?_, ?_, ?_, ?_⟩
      · intro r0 h0
        have h2 := Option.some.inj h0
        subst h2
        exact hI.curSteps cur hc
      · intro r0 h0
        exact hI.selSteps r0 h0
      · intro r0 h0
        exact hI.cbSteps r0 h0
      · intro _
        simp
      · intro _
        exact Or.inl (by simp)
      · intro hscr
        replace hscr : m.app.screen = AppScreen.COOKING := hscr
        obtain ⟨r0, hr0, hlt⟩ := hI.cooking hscr
        rw [hc] at hr0
        have h2 := Option.some.inj hr0
        subst h2
        exact ⟨{ cur with imageUrl := some img }, rfl, hlt⟩
  | cookWithHacks =>
    by_cases hs : m.app.screen = AppScreen.RESULT
    · cases hc : m.app.currentRecipe with
      | none =>
        simp only [stepFn, hs, hc, if_true]
        exact hI
      | some r =>
        simp only [stepFn, hs, hc, if_true]
        refine ⟨?_, ?_, ?_, ?_, ?_, ?_⟩
        · intro r0 h0
          have h2 := Option.some.inj h0
          subst h2
          exact hI.curSteps r hc
        · intro r0 h0
          exact hI.selSteps r0 h0
        · intro r0 h0
          exact hI.cbSteps r0 h0
        · intro hscr
          exact absurd (show AppScreen.COOKING = AppScreen.SHOPPING from hscr) (by decide)
        · intro hscr
          exact absurd (show AppScreen.COOKING = AppScreen.RECIPE_DETAIL from hscr) (by decide)
        · intro _
          exact ⟨r, rfl, List.length_pos.mpr (hI.curSteps r hc)⟩
    · simp only [stepFn]
      rw [if_neg hs]
      exact hI
  | shopIt =>
    by_cases hs : m.app.screen = AppScreen.RESULT
    · cases hc : m.app.currentRecipe with
      | none =>
        simp only [stepFn, hs, hc, if_true]
        exact hI
      | some r =>
        simp only [stepFn, hs, hc, if_true]
        refine ⟨?_, ?_, ?_, ?_, ?_, ?_⟩
        · intro r0 h0
          have h2 := Option.some.inj h0
          subst h2
          exact hI.curSteps r hc
        · intro r0 h0
          exact hI.selSteps r0 h0
        · intro r0 h0
          exact hI.cbSteps r0 h0
        · intro _
          simp
        · intro hscr
          exact absurd (show AppScreen.SHOPPING = AppScreen.RECIPE_DETAIL from hscr) (by decide)
        · intro hscr
          exact absurd (show AppScreen.SHOPPING = AppScreen.COOKING from hscr) (by decide)
    · simp only [stepFn]
      rw [if_neg hs]
      exact hI
  | startCookingFromShopping =>
    by_cases hs : m.app.screen = AppScreen.SHOPPING
    · simp only [stepFn, hs, if_true]
      refine ⟨?_, ?_, ?_, ?_, ?_, ?_⟩
      · intro r0 h0
        exact hI.curSteps r0 h0
      · intro r0 h0
        exact hI.selSteps r0 h0
      · intro r0 h0
        exact hI.cbSteps r0 h0
      · intro hscr
        exact absurd (show AppScreen.COOKING = AppScreen.SHOPPING from hscr) (by decide)
      · intro hscr
        exact absurd (show AppScreen.COOKING = AppScreen.RECIPE_DETAIL from hscr) (by decide)
      · intro _
        cases hc : m.app.currentRecipe with
        | none => exact absurd hc (hI.shopCur hs)
        | some r => exact ⟨r, rfl, List.length_pos.mpr (hI.curSteps r hc)⟩
    · simp only [stepFn]
      rw [if_neg hs]
      exact hI
  | homeNav =>
    simp only [stepFn]
    refine ⟨?_, ?_, ?_, ?_, ?_, ?_⟩
    · intro r0 h0
      exact hI.curSteps r0 h0
    · intro r0 h0
      exact hI.selSteps r0 h0
    · intro r0 h0
      exact hI.cbSteps r0 h0
    · intro hscr
      exact absurd (show AppScreen.LANDING = AppScreen.SHOPPING from hscr) (by decide)
    · intro hscr
      exact absurd (show AppScreen.LANDING = AppScreen.RECIPE_DETAIL from hscr) (by decide)
    · intro hscr
      exact absurd (show AppScreen.LANDING = AppScreen.COOKING from hscr) (by decide)
  | openCookbook =>
    simp only [stepFn]
    refine ⟨?_, ?_, ?_, ?_, ?_, ?_⟩
    · intro r0 h0
      exact hI.curSteps r0 h0
    · intro r0 h0
      exact hI.selSteps r0 h0
    · intro r0 h0
      exact hI.cbSteps r0 h0
    · intro hscr
      exact absurd (show AppScreen.COOKBOOK = AppScreen.SHOPPING from hscr) (by decide)
    · intro hscr
      exact absurd (show AppScreen.COOKBOOK = AppScreen.RECIPE_DETAIL from hscr) (by decide)
    · intro hscr
      exact absurd (show AppScreen.COOKBOOK = AppScreen.COOKING from hscr) (by decide)
  | selectCookbook r =>
    by_cases hg : m.app.screen = AppScreen.COOKBOOK ∧ r ∈ m.app.cookbook
    · simp only [stepFn]
      rw [if_pos hg]
      refine ⟨?_, ?_, ?_, ?_, ?_, ?_⟩
      · intro r0 h0
        exact hI.curSteps r0 h0
      · intro r0 h0
        have h2 := Option.some.inj h0
        subst h2
        exact hI.cbSteps r hg.2
      · intro r0 h0
        exact hI.cbSteps r0 h0
      · intro hscr
        exact absurd (show AppScreen.RECIPE_DETAIL = AppScreen.SHOPPING from hscr) (by decide)
      · intro _
        exact Or.inr (by simp)
      · intro hscr
        exact absurd (show AppScreen.RECIPE_DETAIL = AppScreen.COOKING from hscr) (by decide)
    · simp only [stepFn]
      rw [if_neg hg]
      exact hI
  | backFromDetail =>
    by_cases hs : m.app.screen = AppScreen.RECIPE_DETAIL
    · simp only [stepFn, hs, if_true]
      refine ⟨?_, ?_, ?_, ?_, ?_, ?_⟩
      · intro r0 h0
        exact hI.curSteps r0 h0
      · intro r0 h0
        exact hI.selSteps r0 h0
      · intro r0 h0
        exact hI.cbSteps r0 h0
      · intro hscr
        replace hscr : (if m.app.selectedCookbookRecipe.isSome
            then AppScreen.COOKBOOK else AppScreen.RESULT) = AppScreen.SHOPPING := hscr
        split_ifs at hscr
      · intro hscr
        replace hscr : (if m.app.selectedCookbookRecipe.isSome
            then AppScreen.COOKBOOK else AppScreen.RESULT) = AppScreen.RECIPE_DETAIL := hscr
        split_ifs at hscr
      · intro hscr
        replace hscr : (if m.app.selectedCookbookRecipe.isSome
            then AppScreen.COOKBOOK else AppScreen.RESULT) = AppScreen.COOKING := hscr
        split_ifs at hscr
    · simp only [stepFn]
      rw [if_neg hs]
      exact hI
  | cookNow =>
    by_cases hs : m.app.screen = AppScreen.RECIPE_DETAIL
    · cases hact : activeDetailRecipe m.app with
      | none =>
        simp only [stepFn, hs, hact, if_true]
        exact hI
      | some rec =>
        have hsteps : rec.steps ≠ [] := activeDetail_steps m hI rec hact
        simp only [stepFn, hs, hact, if_true]
        refine ⟨?_, ?_, ?_, ?_, ?_, ?_⟩
        · intro r0 h0
          have h2 := Option.some.inj h0
          subst h2
          exact hsteps
        · intro r0 h0
          exact hI.selSteps r0 h0
        · intro r0 h0
          exact hI.cbSteps r0 h0
        · intro hscr
          exact absurd (show AppScreen.COOKING = AppScreen.SHOPPING from hscr) (by decide)
        · intro hscr
          exact absurd (show AppScreen.COOKING = AppScreen.RECIPE_DETAIL from hscr) (by decide)
        · intro _
          exact ⟨safeRecipeT rec, rfl, List.length_pos.mpr hsteps⟩
    · simp only [stepFn]
      rw [if_neg hs]
      exact hI
  | prevStep =>
    by_cases hs : m.app.screen = AppScreen.COOKING
    · cases hc : m.app.currentRecipe with
      | none =>
        simp only [stepFn, hs, hc, if_true]
        exact hI
      | some r =>
        by_cases h0 : m.stepIndex = 0
        · simp only [stepFn, hs, hc, if_true]
          rw [if_pos h0]
          exact hI
        · simp only [stepFn, hs, hc]
          rw [if_neg h0]
          obtain ⟨r0, hr0, hlt⟩ := hI.cooking hs
          refine ⟨hI.curSteps, hI.selSteps, hI.cbSteps, hI.shopCur, hI.detail, ?_⟩
          intro _
          refine ⟨r0, hr0, ?_⟩
          show m.stepIndex - 1 < r0.steps.length
          omega
    · simp only [stepFn]
      rw [if_neg hs]
      exact hI
  | nextStep =>
    by_cases hs : m.app.screen = AppScreen.COOKING
    · cases hc : m.app.currentRecipe with
      | none =>
        simp only [stepFn, hs, hc, if_true]
        exact hI
      | some r =>
        by_cases hlast : (m.stepIndex : ℤ) = (r.steps.length : ℤ) - 1
        · simp only [stepFn, hs, hc, if_true]
          rw [if_pos hlast]
          exact hI
        · simp only [stepFn, hs, hc]
          rw [if_neg hlast]
          obtain ⟨r0, hr0, hlt⟩ := hI.cooking hs
          rw [hc] at hr0
          have h2 := Option.some.inj hr0
          subst h2
          refine ⟨hI.curSteps, hI.selSteps, hI.cbSteps, hI.shopCur, hI.detail, ?_⟩
          intro _
          refine ⟨r, hc, ?_⟩
          show m.stepIndex + 1 < r.steps.length
          omega
    · simp only [stepFn]
      rw [if_neg hs]
      exact hI
  | finishStep =>
    by_cases hs : m.app.screen = AppScreen.COOKING
    · cases hc : m.app.currentRecipe with
      | none =>
        simp only [stepFn, hs, hc, if_true]
        exact hI
      | some r =>
        by_cases hlast : (m.stepIndex : ℤ) = (r.steps.length : ℤ) - 1
        · simp only [stepFn, hs, hc, if_true]
          rw [if_pos hlast, finishCooking_some m.app r hc]
          refine ⟨?_, ?_, ?_, ?_, ?_, ?_⟩
          · intro r0 h0
            exact hI.curSteps r0 h0
          · intro r0 h0
            exact hI.selSteps r0 h0
          · intro r0 h0
            exact hI.cbSteps r0 h0
          · intro hscr
            exact absurd (show AppScreen.SUCCESS = AppScreen.SHOPPING from hscr) (by decide)
          · intro hscr
            exact absurd (show AppScreen.SUCCESS = AppScreen.RECIPE_DETAIL from hscr) (by decide)
          · intro hscr
            exact absurd (show AppScreen.SUCCESS = AppScreen.COOKING from hscr) (by decide)
        · simp only [stepFn, hs, hc]
          rw [if_neg hlast]
          exact hI
    · simp only [stepFn]
      rw [if_neg hs]
      exact hI
  | backFromCooking =>
    by_cases hs : m.app.screen = AppScreen.COOKING
    · simp only [stepFn, hs, if_true]
      refine ⟨?_, ?_, ?_, ?_, ?_, ?_⟩
      · intro r0 h0
        exact hI.curSteps r0 h0
      · intro r0 h0
        exact hI.selSteps r0 h0
      · intro r0 h0
        exact hI.cbSteps r0 h0
      · intro hscr
        exact absurd (show AppScreen.RESULT = AppScreen.SHOPPING from hscr) (by decide)
      · intro hscr
        exact absurd (show AppScreen.RESULT = AppScreen.RECIPE_DETAIL from hscr) (by decide)
      · intro hscr
        exact absurd (show AppScreen.RESULT = AppScreen.COOKING from hscr) (by decide)
    · simp only [stepFn]
      rw [if_neg hs]
      exact hI
  | backFromShopping =>
    by_cases hs : m.app.screen = AppScreen.SHOPPING
    · simp only [stepFn, hs, if_true]
      refine ⟨?_, ?_, ?_, ?_, ?_, ?_⟩
      · intro r0 h0
        exact hI.curSteps r0 h0
      · intro r0 h0
        exact hI.selSteps r0 h0
      · intro r0 h0
        exact hI.cbSteps r0 h0
      · intro hscr
        exact absurd (show AppScreen.RESULT = AppScreen.SHOPPING from hscr) (by decide)
      · intro hscr
        exact absurd (show AppScreen.RESULT = AppScreen.RECIPE_DETAIL from hscr) (by decide)
      · intro hscr
        exact absurd (show AppScreen.RESULT = AppScreen.COOKING from hscr) (by decide)
    · simp only [stepFn]
      rw [if_neg hs]
      exact hI
  | saveAct t dateStr =>
    simp only [stepFn]
    cases hc : m.app.currentRecipe with
    | none =>
      rw [saveRecipe_none t dateStr m.app hc]
      exact hI
    | some cur =>
      cases hsat : isRecipeSaved m.app (some cur.id) with
      | true =>
        rw [saveRecipe_saved t dateStr m.app cur hc hsat]
        exact hI
      | false =>
        rw [saveRecipe_new t dateStr m.app cur hc hsat]
        refine ⟨hI.curSteps, hI.selSteps, ?_, hI.shopCur, hI.detail, hI.cooking⟩
        intro r0 h0
        rcases List.mem_cons.mp h0 with h1 | h1
        · subst h1
          exact hI.curSteps cur hc
        · exact hI.cbSteps r0 h1
  | magicEdit newImage =>
    by_cases hs : m.app.screen = AppScreen.RECIPE_DETAIL
    · simp only [stepFn, hs, if_true]
      rcases applyMagicEdit_detail newImage m.app hs with h | ⟨active, hact, h⟩
      · rw [h]
        exact hI
      · rw [h]
        have hsteps : active.steps ≠ [] := activeDetail_steps m hI active hact
        refine ⟨?_, ?_, ?_, ?_, ?_, ?_⟩
        · intro r0 h0
          exact hI.curSteps r0 h0
        · intro r0 h0
          have h2 := Option.some.inj h0
          subst h2
          exact hsteps
        · intro r0 h0
          obtain ⟨r1, hr1, heq⟩ := List.mem_map.mp h0
          by_cases hid : r1.id = active.id
          · rw [if_pos hid] at heq
            subst heq
            exact hsteps
          · rw [if_neg hid] at heq
            subst heq
            exact hI.cbSteps r1 hr1
        · intro hscr
          replace hscr : m.app.screen = AppScreen.SHOPPING := hscr
          rw [hs] at hscr
          exact absurd hscr (by decide)
        · intro _
          exact Or.inr (by simp)
        · intro hscr
          replace hscr : m.app.screen = AppScreen.COOKING := hscr
          rw [hs] at hscr
          exact absurd hscr (by decide)
    · simp only [stepFn]
      rw [if_neg hs]
      exact hI
  | setCity c =>
    exact ⟨hI.curSteps, hI.selSteps, hI.cbSteps, hI.shopCur, hI.detail, hI.cooking⟩
  | addIngredientAct nm =>
    by_cases ht : nm.trim = ""
    · simp only [stepFn]
      rw [if_pos ht]
      exact hI
    · simp only [stepFn]
      rw [if_neg ht]
      exact ⟨hI.curSteps, hI.selSteps, hI.cbSteps, hI.shopCur, hI.detail, hI.cooking⟩
  | removeIngredientAct i =>
    exact ⟨hI.curSteps, hI.selSteps, hI.cbSteps, hI.shopCur, hI.detail, hI.cooking⟩
  | scanArrives ingredients =>
    exact ⟨hI.curSteps, hI.selSteps, hI.cbSteps, hI.shopCur, hI.detail, hI.cooking⟩

/-- The strengthened invariant holds at the fresh-session initial state. -/
lemma invFull_init : InvFull initM := by
  constructor <;> simp [initM, defaultState, DetailInv, CookingInv]

/-- Every reachable state of the machine (under nonempty-steps generation)
satisfies the strengthened invariant. -/
lemma reach_invFull (m : MState) (h : Reach (fun r => r.steps ≠ []) m) :
    InvFull m := by
  induction h with
  | init => exact invFull_init
  | step m0 a _ hA ih => exact invFull_step m0 a ih hA

/-- C5 (amended): in every state reachable from a fresh session in which
every generated recipe has a nonempty step list, the detail screen always
has a current or selected recipe, and the cooking screen always has a
current recipe with the step index inside its step range. -/
theorem claim_C5_amended (m : MState)
    (h : Reach (fun r => r.steps ≠ []) m) :
    DetailInv m ∧ CookingInv m :=
  ⟨(reach_invFull m h).detail, (reach_invFull m h).cooking⟩

/-- C5 (counterexample): generating a recipe whose step list is empty and
pressing the cook-with-hacks button reaches a COOKING state whose step index
0 is not below the step count 0 — the claimed invariant fails on the
unrestricted machine. -/
theorem claim_C5_counterexample :
    Reach (fun _ => True) cexM ∧
    cexM.app.screen = AppScreen.COOKING ∧
    ¬ CookingInv cexM := by
  refine ⟨?_, rfl, ?_⟩
  · exact Reach.step _ Action.cookWithHacks
      (Reach.step _ (Action.generate emptyStepsRecipe) Reach.init True.intro)
      True.intro
  · intro hCI
    obtain ⟨r, hr, hlt⟩ := hCI rfl
    have hr2 : ({ emptyStepsRecipe with imageUrl := some "" } : Recipe) = r :=
      Option.some.inj hr
    rw [← hr2] at hlt
    simp [emptyStepsRecipe, sampleRecipe] at hlt

/-- C5 (witness): the amended invariant evaluated on the concrete reachable
state after generating the sample recipe and starting to cook. -/
theorem claim_C5_witness :
    ∃ r, goodM.app.currentRecipe = some r ∧
      goodM.stepIndex < r.steps.length := by
  have h1 : Reach (fun r => r.steps ≠ []) (stepFn initM (Action.generate sampleRecipe)) :=
    Reach.step initM (Action.generate sampleRecipe) Reach.init
      (by simp [ActOK, sampleRecipe])
  have h2 : Reach (fun r => r.steps ≠ []) goodM :=
    Reach.step _ Action.cookWithHacks h1 True.intro
  exact (claim_C5_amended goodM h2).2 rfl

end RescueChef
